import Mathlib

/-!
Verification development for the HEPunion union file system.

The development shallowly embeds the metadata (ME) store of me.c and the
operation dispatcher of opts.c over a pure filesystem state consisting of
the two branch directories. Helpers that live in files outside the given
sources (hepunion.h, helpers) are modelled from the specification and are
marked as such in their doc comments.
-/

set_option maxRecDepth 4000

namespace HepUnion

/-- Decidable equality of fallible results, used to evaluate the concrete
scenarios. -/
instance exceptDecEq {ε α : Type} [DecidableEq ε] [DecidableEq α] : DecidableEq (Except ε α) :=
  fun a b =>
    match a, b with
    | .ok x, .ok y =>
      if h : x = y then .isTrue (by rw [h]) else .isFalse (by intro hh; cases hh; exact h rfl)
    | .error x, .error y =>
      if h : x = y then .isTrue (by rw [h]) else .isFalse (by intro hh; cases hh; exact h rfl)
    | .ok _, .error _ => .isFalse (by intro hh; cases hh)
    | .error _, .ok _ => .isFalse (by intro hh; cases hh)

/-- Errno value for a missing entry. -/
def ENOENT : Int := 2

/-- Errno value for an already existing entry. -/
def EEXIST : Int := 17

/-- Errno value for an invalid path. -/
def EINVAL : Int := 22

/-- Errno value for a non-empty directory. -/
def ENOTEMPTY : Int := 39

/-- Modelled from the spec (section 3): VALID_MODES_MASK is the set of
alterable permission and special bits, rwx for user, group and other plus
setuid, setgid and sticky. The macro itself lives in hepunion.h, which is
not part of the given sources. -/
def VALID_MODES_MASK : Nat := 0o7777

/-- Complement of VALID_MODES_MASK on the 16-bit umode_t domain: the
non-alterable file-type bits. -/
def TYPE_MODES_MASK : Nat := 0o170000

/-- Modelled from the spec: clear_mode_flags keeps only the alterable mode
bits. The macro is defined in hepunion.h, which is not in the sources; per
spec section 4.4 creation modes have the non-alterable bits cleared, so
each call site of the embedding binds the masked value. -/
def clear_mode_flags (m : Nat) : Nat := m &&& VALID_MODES_MASK

/-- Stat record of a file: the attribute fields the system manipulates. -/
structure Stat where
  mode : Nat
  uid : Nat
  gid : Nat
  size : Nat
  atime : Nat
  mtime : Nat
  ctime : Nat
  deriving DecidableEq

/-- Attribute-change request: one validity flag per attribute, mirroring
the ATTR_MODE, ATTR_UID, ATTR_GID, ATTR_SIZE, ATTR_ATIME, ATTR_MTIME and
ATTR_CTIME bits of ia_valid, plus the requested values. -/
structure Iattr where
  vMode : Bool
  vUid : Bool
  vGid : Bool
  vSize : Bool
  vAtime : Bool
  vMtime : Bool
  vCtime : Bool
  mode : Nat
  uid : Nat
  gid : Nat
  size : Nat
  atime : Nat
  mtime : Nat
  ctime : Nat
  deriving DecidableEq

/-- Modelled from the spec (sections 4.4 and 4.7): the host primitive
notify_change applies exactly the attributes flagged valid in the request
to the target stat. -/
def notify_change (st : Stat) (a : Iattr) : Stat where
  mode := if a.vMode then a.mode else st.mode
  uid := if a.vUid then a.uid else st.uid
  gid := if a.vGid then a.gid else st.gid
  size := if a.vSize then a.size else st.size
  atime := if a.vAtime then a.atime else st.atime
  mtime := if a.vMtime then a.mtime else st.mtime
  ctime := if a.vCtime then a.ctime else st.ctime

/-- Branch identity of a concrete path. -/
inductive Br
  | ro
  | rw
  deriving DecidableEq

/-- Logical paths are lists of name components, the last one being the
basename. -/
abbrev Path := List String

/-- Concrete path: a branch together with the path below its root. -/
structure CPath where
  br : Br
  lp : Path
  deriving DecidableEq

/-- A node of a branch: a regular file or directory carrying a stat, a
symbolic link recording its target concrete path, or a hard link recording
the concrete path it was linked from. -/
inductive FNode
  | reg : Stat → FNode
  | sym : Stat → CPath → FNode
  | hard : Stat → CPath → FNode
  deriving DecidableEq

/-- Stat carried by a node. -/
def FNode.st : FNode → Stat
  | .reg s => s
  | .sym s _ => s
  | .hard s _ => s

/-- Replace the stat carried by a node. -/
def FNode.withSt : FNode → Stat → FNode
  | .reg _, s => .reg s
  | .sym _ t, s => .sym s t
  | .hard _ t, s => .hard s t

/-- Filesystem state: the entries of the read-only branch and of the
read-write branch. -/
structure FS where
  ro : List (Path × FNode)
  rw : List (Path × FNode)
  deriving DecidableEq

/-- First-match lookup in a branch. -/
def lookupEntry (l : List (Path × FNode)) (p : Path) : Option FNode :=
  match l with
  | [] => none
  | e :: rest => if e.1 = p then some e.2 else lookupEntry rest p

/-- Remove every entry at the given path. -/
def removeEntry (l : List (Path × FNode)) (p : Path) : List (Path × FNode) :=
  match l with
  | [] => []
  | e :: rest => if e.1 = p then removeEntry rest p else e :: removeEntry rest p

/-- Insert or replace the entry at the given path. -/
def insertEntry (l : List (Path × FNode)) (p : Path) (n : FNode) : List (Path × FNode) :=
  (p, n) :: removeEntry l p

/-- Transform the node stored at the given path, if any. -/
def updateEntry (l : List (Path × FNode)) (p : Path) (f : FNode → FNode) : List (Path × FNode) :=
  match l with
  | [] => []
  | e :: rest => if e.1 = p then (e.1, f e.2) :: updateEntry rest p f else e :: updateEntry rest p f

/-- Entries of the branch a concrete path lives on. -/
def FS.branch (fs : FS) : Br → List (Path × FNode)
  | .ro => fs.ro
  | .rw => fs.rw

/-- Modelled from the host: lstat returns the stat of the node at a
concrete path, or ENOENT. -/
def lstat (fs : FS) (c : CPath) : Except Int Stat :=
  match lookupEntry (fs.branch c.br) c.lp with
  | some n => .ok n.st
  | none => .error (-ENOENT)

/-- Split a path into its parent and its basename; none for the empty
path, which has no directory separator. -/
def splitLast : Path → Option (Path × String)
  | [] => none
  | [n] => some ([], n)
  | x :: y :: rest =>
    match splitLast (y :: rest) with
    | some dn => some (x :: dn.1, dn.2)
    | none => none

/-- Sidecar metadata path of a logical path: same parent, basename with
the .me. marker prepended. -/
def mePathOf (p : Path) : Option Path :=
  (splitLast p).map (fun dn => dn.1 ++ [".me." ++ dn.2])

/-- Whiteout path of a logical path: same parent, basename with the .wh.
marker prepended. -/
def whPathOf (p : Path) : Option Path :=
  (splitLast p).map (fun dn => dn.1 ++ [".wh." ++ dn.2])

/-- Reserved-name test for metadata sidecars: the basename begins with
the four characters of the .me. marker. -/
def is_me (n : String) : Bool := decide (n.data.take 4 = ".me.".data)

/-- Reserved-name test for whiteouts: the basename begins with the four
characters of the .wh. marker. -/
def is_whiteout (n : String) : Bool := decide (n.data.take 4 = ".wh.".data)

/-- Strip the four-character reserved marker from a basename, mirroring
the pointer arithmetic name plus four of the source; the markers are
ASCII, so characters and bytes coincide. -/
def stripMarker (n : String) : String := ⟨n.data.drop 4⟩

/-- Resolution intents of the branch resolver. -/
inductive Intent
  | any
  | mustRO
  | mustRW
  deriving DecidableEq

/-- Origin tags of a resolution. -/
inductive Origin
  | readOnly
  | readWrite
  | readWriteCopyup
  deriving DecidableEq

/-- Modelled from the spec (section 4.2): find_file is implemented in a
source file that is not part of the given sources. A whiteout hides the
entry regardless of the branches; otherwise the RW branch shadows the RO
branch; the must-RO and must-RW intents look at a single branch. The
copy-up intent is not needed by any claim and is not modelled. -/
def find_file (fs : FS) (p : Path) (it : Intent) : Except Int (Origin × CPath) :=
  match whPathOf p with
  | none => .error (-EINVAL)
  | some wp =>
    if (lookupEntry fs.rw wp).isSome then .error (-ENOENT)
    else if it ≠ .mustRO ∧ (lookupEntry fs.rw p).isSome then .ok (.readWrite, ⟨.rw, p⟩)
    else if (it = .any ∨ it = .mustRO) ∧ (lookupEntry fs.ro p).isSome then .ok (.readOnly, ⟨.ro, p⟩)
    else .error (-ENOENT)

/-- Modelled from the spec: creat_worker creates a zero-size regular file
on the RW branch with the given mode; the remaining attributes start at
the model clock zero. -/
def creat_worker (fs : FS) (p : Path) (mode : Nat) : FS :=
  { fs with rw := insertEntry fs.rw p (.reg { mode := mode, uid := 0, gid := 0, size := 0, atime := 0, mtime := 0, ctime := 0 }) }

/-- Apply an attribute-change request to the node at a concrete path. -/
def applyAttr (fs : FS) (c : CPath) (a : Iattr) : FS :=
  match c.br with
  | .ro => { fs with ro := updateEntry fs.ro c.lp (fun n => n.withSt (notify_change n.st a)) }
  | .rw => { fs with rw := updateEntry fs.rw c.lp (fun n => n.withSt (notify_change n.st a)) }

/-- Stat given to a freshly created RW directory when the RO branch has no
directory to copy attributes from. -/
def defaultDirStat : Stat :=
  { mode := 0o40755, uid := 0, gid := 0, size := 0, atime := 0, mtime := 0, ctime := 0 }

/-- Strict ancestors of a path, shortest first. -/
def ancestors : Path → List Path
  | [] => []
  | x :: rest => [] :: (ancestors rest).map (fun q => x :: q)

/-- One step of the parent-chain materialiser: create the RW directory at
the given path when it is missing, copying the RO attributes if present. -/
def addDir (fs : FS) (q : Path) : FS :=
  if q = [] then fs
  else if (lookupEntry fs.rw q).isSome then fs
  else
    { fs with rw := insertEntry fs.rw q (.reg
        (match lookupEntry fs.ro q with
         | some n => n.st
         | none => defaultDirStat)) }

/-- Modelled from the spec (section 4.5): find_path walks the components
of the logical path and creates each missing RW directory. -/
def find_path (fs : FS) (p : Path) : FS :=
  (ancestors p).foldl addDir fs

/-- Stat of a freshly materialised whiteout marker; its contents and
attributes are irrelevant, existence is the signal. -/
def whiteoutStat : Stat :=
  { mode := 0o100644, uid := 0, gid := 0, size := 0, atime := 0, mtime := 0, ctime := 0 }

/-- Modelled from the spec (section 4.3): create_whiteout materialises the
whiteout marker on the RW branch, creating intermediate directories as
needed. The fault argument injects a failure result of the underlying
creation, in which case no state change is made. -/
def create_whiteout (fault : Option Int) (fs : FS) (p : Path) : Int × FS :=
  match fault with
  | some e => (e, fs)
  | none =>
    match whPathOf p with
    | none => (-EINVAL, fs)
    | some wp =>
      let fs1 := find_path fs p
      (0, { fs1 with rw := insertEntry fs1.rw wp (.reg whiteoutStat) })

/-- Modelled from the spec (section 4.3): unlink_whiteout removes the
whiteout if present and silently succeeds otherwise. -/
def unlink_whiteout (fs : FS) (p : Path) : FS :=
  match whPathOf p with
  | none => fs
  | some wp => { fs with rw := removeEntry fs.rw wp }

/-- Modelled from the host: unlink of a concrete RW path. -/
def unlink_w (fs : FS) (p : Path) : Int × FS :=
  match lookupEntry fs.rw p with
  | some _ => (0, { fs with rw := removeEntry fs.rw p })
  | none => (-ENOENT, fs)

/-- Basenames of the entries of a branch lying directly inside the given
directory. -/
def childrenNames (l : List (Path × FNode)) (p : Path) : List String :=
  match l with
  | [] => []
  | e :: rest =>
    match splitLast e.1 with
    | some dn => if dn.1 = p then dn.2 :: childrenNames rest p else childrenNames rest p
    | none => childrenNames rest p

/-- Modelled from the host: rmdir of a concrete RW directory, failing when
the underlying directory still has entries. -/
def rmdir_w (fs : FS) (p : Path) : Int × FS :=
  match lookupEntry fs.rw p with
  | none => (-ENOENT, fs)
  | some _ =>
    if childrenNames fs.rw p = [] then (0, { fs with rw := removeEntry fs.rw p })
    else (-ENOTEMPTY, fs)

/-- Modelled from the spec (section 4.8): is_empty_dir computes emptiness
over the merged view: the RO and RW children of the directory, reserved
names hidden, minus the entries covered by a whiteout. The two booleans
mirror the call sites passing a null pointer for an absent branch
directory. -/
def is_empty_dir (fs : FS) (p : Path) (useRO useRW : Bool) : Int :=
  let roKids := if useRO then childrenNames fs.ro p else []
  let rwKids := if useRW then childrenNames fs.rw p else []
  let visible := (rwKids ++ roKids).filter
    (fun n => !(is_me n) && !(is_whiteout n) && (lookupEntry fs.rw (p ++ [".wh." ++ n])).isNone)
  if visible = [] then 0 else -ENOTEMPTY

/-- Translation of find_me from me.c: build the sidecar path, same parent
and a .me. marker prepended to the basename, on the RW branch and stat
it. -/
def find_me (fs : FS) (p : Path) : Except Int (Path × Stat) :=
  match mePathOf p with
  | none => .error (-EINVAL)
  | some mp =>
    match lookupEntry fs.rw mp with
    | some n => .ok (mp, n.st)
    | none => .error (-ENOENT)

/-- Translation of create_me from me.c: create the zero-size sidecar with
the cleared mode, then apply one attribute update whose validity flags are
ATTR_MODE, ATTR_UID, ATTR_GID, ATTR_ATIME and ATTR_MTIME; the source fills
ia_ctime but does not set ATTR_CTIME, and sets ia_size to zero without
setting ATTR_SIZE. -/
def create_me (fs : FS) (me_path : Path) (kst : Stat) : FS :=
  let mode := clear_mode_flags kst.mode
  let fs1 := creat_worker fs me_path mode
  applyAttr fs1 ⟨.rw, me_path⟩
    { vMode := true, vUid := true, vGid := true, vSize := false, vAtime := true, vMtime := true, vCtime := false,
      mode := kst.mode, uid := kst.uid, gid := kst.gid, size := 0,
      atime := kst.atime, mtime := kst.mtime, ctime := kst.ctime }

/-- Translation of get_file_attr_worker from me.c: probe for the sidecar,
stat the resolved file, and whenever the sidecar exists overwrite owner
and times with the sidecar values and merge the modes: non-alterable bits
of the real file, alterable bits of the sidecar. -/
def get_file_attr_worker (fs : FS) (p : Path) (real : CPath) : Except Int Stat :=
  let me := find_me fs p
  match lstat fs real with
  | .error e => .error e
  | .ok st =>
    match me with
    | .ok mn =>
      .ok { st with
        uid := mn.2.uid, gid := mn.2.gid,
        atime := mn.2.atime, mtime := mn.2.mtime, ctime := mn.2.ctime,
        mode := (st.mode &&& TYPE_MODES_MASK) ||| clear_mode_flags mn.2.mode }
    | .error _ => .ok st

/-- Translation of get_file_attr from me.c: resolve the path, keeping only
the concrete path and discarding the origin tag, then call the worker. -/
def get_file_attr (fs : FS) (p : Path) : Except Int Stat :=
  match find_file fs p .any with
  | .error e => .error e
  | .ok r => get_file_attr_worker fs p r.2

/-- Masking step that opens set_me_worker: the request is reduced to the
uid, gid, atime, mtime and mode attributes. -/
def maskToMe (a : Iattr) : Iattr :=
  { a with vSize := false, vCtime := false }

/-- Any-attribute-requested test of a request, mirroring the test of a
non-zero ia_valid. -/
def anyValid (a : Iattr) : Bool :=
  a.vMode || a.vUid || a.vGid || a.vSize || a.vAtime || a.vMtime || a.vCtime

/-- Attribute fixup performed by set_me_worker when the sidecar is being
created, translated from me.c: the mode flag is dropped, because the mode
was already applied through the creation mode, and a time pair or owner
pair that is not fully requested is overwritten, values and flags, from
the stat of the real file. -/
def meCreateAttr (a : Iattr) (kstme : Stat) : Iattr :=
  let a1 := { a with vMode := false }
  let a2 := if !(a1.vAtime && a1.vMtime) then
      { a1 with atime := kstme.atime, mtime := kstme.mtime, vAtime := true, vMtime := true }
    else a1
  if !(a2.vUid && a2.vGid) then
    { a2 with uid := kstme.uid, gid := kstme.gid, vUid := true, vGid := true }
  else a2

/-- Translation of set_me_worker from me.c. The request is first masked to
the uid, gid, atime, mtime and mode attributes. If no sidecar exists one
is created: the parent chain is materialised, the sidecar is created with
the cleared requested (or current) mode, and the fixed-up remaining
request is applied to it; when the sidecar exists the masked request is
applied to it directly, if it requests anything at all. -/
def set_me_worker (fs : FS) (p : Path) (real : CPath) (attr0 : Iattr) : Int × FS :=
  let attr := maskToMe attr0
  match mePathOf p with
  | none => (-EINVAL, fs)
  | some mp =>
    match lookupEntry fs.rw mp with
    | none =>
      match lstat fs real with
      | .error e => (e, fs)
      | .ok kstme =>
        let fs1 := find_path fs p
        let mode := clear_mode_flags (if attr.vMode then attr.mode else kstme.mode)
        let fs2 := creat_worker fs1 mp mode
        (0, applyAttr fs2 ⟨.rw, mp⟩ (meCreateAttr attr kstme))
    | some _ =>
      if anyValid attr then (0, applyAttr fs ⟨.rw, mp⟩ attr)
      else (0, fs)

/-- Translation of hepunion_setattr from opts.c: on an RW or copied-up
resolution the request is applied directly to the RW file; on an RO
resolution it is delegated, unmasked, to set_me_worker. -/
def hepunion_setattr (fs : FS) (p : Path) (attr : Iattr) : Int × FS :=
  match find_file fs p .any with
  | .error e => (e, fs)
  | .ok (.readWrite, real) | .ok (.readWriteCopyup, real) => (0, applyAttr fs real attr)
  | .ok (.readOnly, real) => set_me_worker fs p real attr

/-- Modelled from the spec (section 4.8): unlink_rw_file, implemented
outside the given sources, removes the RW file and, when the RO branch
also has the entry, creates a whiteout. -/
def unlink_rw_file (fault : Option Int) (fs : FS) (p : Path) : Int × FS :=
  let r := unlink_w fs p
  if r.1 < 0 then r
  else if (lookupEntry fs.ro p).isSome then create_whiteout fault r.2 p
  else r

/-- Translation of hepunion_unlink from opts.c. The can_remove credential
check is host glue whose integer result is passed in; the fault argument
is the injected result of the underlying whiteout creation. On an RO
resolution the sidecar, if any, is unlinked first, then the whiteout is
created, and if that fails after the sidecar was deleted the sidecar is
recreated from the saved stat. -/
def hepunion_unlink (canRemove : Int) (fault : Option Int) (fs : FS) (p : Path) : Int × FS :=
  match find_file fs p .any with
  | .error e => (e, fs)
  | .ok (.readWrite, real) | .ok (.readWriteCopyup, real) => unlink_rw_file fault fs real.lp
  | .ok (.readOnly, _) =>
    if canRemove < 0 then (canRemove, fs)
    else
      match find_me fs p with
      | .ok mk =>
        let r1 := unlink_w fs mk.1
        if r1.1 < 0 then r1
        else
          let r2 := create_whiteout fault r1.2 p
          if r2.1 < 0 then (r2.1, create_me r2.2 mk.1 mk.2)
          else r2
      | .error _ => create_whiteout fault fs p

/-- Numeric value of an origin tag as returned by find_file in the C
sources. The constants live in a header that is not part of the given
sources; only their non-negativity and distinctness are relied upon. -/
def originCode : Origin → Int
  | .readWrite => 1
  | .readOnly => 2
  | .readWriteCopyup => 3

/-- Translation of hepunion_rmdir from opts.c, including the inverted
can_remove test of the read-only case: the source breaks out of the
switch, with err still holding the origin constant, exactly when
can_remove returns zero (permission granted), and proceeds when it
returns a negative error. In the read-write case a failed rmdir unlinks
the whiteout again. -/
def hepunion_rmdir (canRemove : Int) (fault : Option Int) (fs : FS) (p : Path) : Int × FS :=
  match find_file fs p .any with
  | .error e => (e, fs)
  | .ok (.readWrite, real) | .ok (.readWriteCopyup, real) =>
    let has_ro := (find_file fs p .mustRO).isOk
    if canRemove < 0 then (canRemove, fs)
    else if is_empty_dir fs p has_ro true < 0 then (-ENOTEMPTY, fs)
    else if has_ro then
      let r1 := create_whiteout fault fs p
      if r1.1 < 0 then (0, fs)
      else
        let r2 := rmdir_w r1.2 real.lp
        if r2.1 < 0 then (r2.1, unlink_whiteout r2.2 p) else r2
    else
      let r2 := rmdir_w fs real.lp
      if r2.1 < 0 then (r2.1, unlink_whiteout r2.2 p) else r2
  | .ok (.readOnly, _) =>
    if canRemove = 0 then (originCode .readOnly, fs)
    else if is_empty_dir fs p true false < 0 then (-ENOTEMPTY, fs)
    else
      match find_me fs p with
      | .ok mk =>
        let r1 := unlink_w fs mk.1
        if r1.1 < 0 then r1
        else
          let r2 := create_whiteout fault r1.2 p
          if r2.1 < 0 then (r2.1, create_me r2.2 mk.1 mk.2)
          else r2
      | .error _ => create_whiteout fault fs p

/-- Translation of hepunion_create from opts.c: fail with EEXIST when the
entry already resolves, materialise the RW parent chain, create the file,
set its owner to the caller credentials, and drop any whiteout. The
can_create credential check and the inode bookkeeping are host glue
outside the filesystem state. The source contains no reserved-name check:
its header carries a todo to disallow .me. and .wh. creation. -/
def hepunion_create (fs : FS) (p : Path) (mode : Nat) (fsuid fsgid : Nat) : Int × FS :=
  match find_file fs p .any with
  | .ok _ => (-EEXIST, fs)
  | .error _ =>
    let fs1 := find_path fs p
    let fs2 := creat_worker fs1 p mode
    let fs3 := applyAttr fs2 ⟨.rw, p⟩
      { vMode := false, vUid := true, vGid := true, vSize := false, vAtime := false, vMtime := false, vCtime := false,
        mode := 0, uid := fsuid, gid := fsgid, size := 0, atime := 0, mtime := 0, ctime := 0 }
    (0, unlink_whiteout fs3 p)

/-- Stat of a freshly created symbolic link. -/
def symlinkStat : Stat :=
  { mode := 0o120777, uid := 0, gid := 0, size := 0, atime := 0, mtime := 0, ctime := 0 }

/-- Modelled from the spec: symlink_worker, implemented outside the given
sources, creates on the RW branch a symbolic link recording its target
concrete path. -/
def symlink_worker (fs : FS) (target : CPath) (dst : Path) : Int × FS :=
  (0, { fs with rw := insertEntry fs.rw dst (.sym symlinkStat target) })

/-- Modelled from the spec: link_worker, implemented outside the given
sources, makes a hard link inside the RW branch; the model records in the
new node the concrete path it was linked from. -/
def link_worker (fs : FS) (src : Path) (dst : Path) : Int × FS :=
  match lookupEntry fs.rw src with
  | none => (-ENOENT, fs)
  | some n => (0, { fs with rw := insertEntry fs.rw dst (.hard n.st ⟨.rw, src⟩) })

/-- Translation of hepunion_link from opts.c: resolve the source; fail
with EEXIST when the destination resolves; materialise the destination
parent chain; on a read-only source fall back to a symbolic link to the
read-only concrete path, otherwise hard-link inside the RW branch; in both
cases drop any whiteout at the destination afterwards. -/
def hepunion_link (fs : FS) (src dst : Path) : Int × FS :=
  match find_file fs src .any with
  | .error e => (e, fs)
  | .ok (origin, real_from) =>
    match find_file fs dst .any with
    | .ok _ => (-EEXIST, fs)
    | .error _ =>
      let fs1 := find_path fs dst
      match origin with
      | .readOnly =>
        let r := symlink_worker fs1 real_from dst
        if r.1 < 0 then r else (0, unlink_whiteout r.2 dst)
      | _ =>
        let r := link_worker fs1 real_from.lp dst
        if r.1 < 0 then r else (0, unlink_whiteout r.2 dst)

/-- Directory-listing context: the merged files list and the pending
whiteouts list, both kept most-recent-first because the source inserts
with list_add, which prepends at the list head. -/
structure DirCtx where
  files : List String
  whiteouts : List String
  deriving DecidableEq

/-- Translation of read_rw_branch from opts.c: sidecar entries are
skipped; whiteout entries have the four-character marker stripped and are
recorded only when an RO directory is present; any other entry is
prepended to the files list. -/
def read_rw_branch (hasRO : Bool) (ctx : DirCtx) (name : String) : DirCtx :=
  if is_me name then ctx
  else if is_whiteout name then
    if hasRO then { ctx with whiteouts := stripMarker name :: ctx.whiteouts } else ctx
  else { ctx with files := name :: ctx.files }

/-- Translation of read_ro_branch from opts.c: an entry matching a
recorded whiteout or an already-listed name is dropped, otherwise it is
prepended to the files list. -/
def read_ro_branch (ctx : DirCtx) (name : String) : DirCtx :=
  if name ∈ ctx.whiteouts then ctx
  else if name ∈ ctx.files then ctx
  else { ctx with files := name :: ctx.files }

/-- Translation of the population phase of hepunion_readdir from opts.c:
browse the RW directory, then the RO directory, each in underlying order,
then discard the pending whiteouts. The booleans mirror the presence of
each branch directory in the open-directory context. -/
def readdir_populate (hasRW hasRO : Bool) (rwNames roNames : List String) : List String :=
  let c0 : DirCtx := { files := [], whiteouts := [] }
  let c1 := if hasRW then rwNames.foldl (read_rw_branch hasRO) c0 else c0
  let c2 := if hasRO then roNames.foldl read_ro_branch c1 else c1
  c2.files

/-- Cursor walk of hepunion_readdir from opts.c: compare a running index
with the requested position and emit the matching entry. -/
def readdir_find : List String → Nat → Nat → Option String
  | [], _, _ => none
  | e :: rest, i, pos => if i = pos then some e else readdir_find rest (i + 1) pos

/-- Translation of the iteration step of hepunion_readdir from opts.c:
look up the entry at the file position; past the end no entry is emitted,
which reports end of directory. -/
def hepunion_readdir_at (files : List String) (pos : Nat) : Option String :=
  readdir_find files 0 pos

/-- RW entries kept by the directory merger: neither sidecars nor
whiteouts. -/
def rwKept (rwN : List String) : List String :=
  rwN.filter (fun n => !(is_me n) && !(is_whiteout n))

/-- Whiteout targets collected from the RW entries of a directory. -/
def rwWhs (rwN : List String) : List String :=
  (rwN.filter (fun n => !(is_me n) && is_whiteout n)).map stripMarker

/-- RO entries surviving the directory merge: covered neither by a
collected whiteout nor by a kept RW entry. -/
def roSurvivors (rwN roN : List String) : List String :=
  roN.filter (fun n => decide (n ∉ rwWhs rwN ∧ n ∉ rwKept rwN))

/-- Concrete stat of a read-write data file used in the scenarios. -/
def statRwData : Stat :=
  { mode := 0o100644, uid := 7, gid := 7, size := 10, atime := 1, mtime := 2, ctime := 3 }

/-- Concrete stat of a metadata sidecar used in the scenarios. -/
def statMeSide : Stat :=
  { mode := 0o600, uid := 42, gid := 43, size := 0, atime := 11, mtime := 12, ctime := 13 }

/-- Scenario state for shadowing: the RW branch holds both the data file
a and the sidecar .me.a, a state reachable through the unchecked creation
of reserved names. -/
def fsShadow : FS :=
  { ro := [], rw := [(["a"], .reg statRwData), ([".me.a"], .reg statMeSide)] }

/-- Concrete stat of a directory. -/
def statDir : Stat :=
  { mode := 0o40755, uid := 0, gid := 0, size := 4096, atime := 1, mtime := 1, ctime := 1 }

/-- Scenario state for reserved-name creation: the RO branch holds the
directory foo, the RW branch is empty. -/
def fsResv : FS := { ro := [(["foo"], .reg statDir)], rw := [] }

/-- Concrete stat of a sidecar carrying directory metadata. -/
def statMeDir : Stat :=
  { mode := 0o700, uid := 5, gid := 5, size := 0, atime := 2, mtime := 2, ctime := 2 }

/-- Scenario state for rmdir: an RO directory d, empty in the merged
view, with a metadata sidecar on the RW branch. -/
def fsRmdir : FS := { ro := [(["d"], .reg statDir)], rw := [([".me.d"], .reg statMeDir)] }

/-- Concrete stat fed to create_me in the round-trip scenario. -/
def statKst : Stat :=
  { mode := 0o644, uid := 1, gid := 2, size := 9, atime := 3, mtime := 4, ctime := 5 }

/-- The empty filesystem. -/
def fsEmpty : FS := { ro := [], rw := [] }

/-- Concrete stat of a read-only data file. -/
def statRoData : Stat :=
  { mode := 0o100644, uid := 1000, gid := 1000, size := 100, atime := 9, mtime := 9, ctime := 9 }

/-- Scenario state with a single RO file a and an empty RW branch. -/
def fsRoOnly : FS := { ro := [(["a"], .reg statRoData)], rw := [] }

/-- Attribute request flagging only a uid change to 1001. -/
def attrUidOnly : Iattr :=
  { vMode := false, vUid := true, vGid := false, vSize := false, vAtime := false, vMtime := false, vCtime := false,
    mode := 0, uid := 1001, gid := 0, size := 0, atime := 0, mtime := 0, ctime := 0 }

/-- Scenario state for unlink: RO file f with a metadata sidecar. -/
def fsUnlink : FS := { ro := [(["f"], .reg statRoData)], rw := [([".me.f"], .reg statMeDir)] }

/-- Scenario state for link: RO file shared, stale whiteout at alias. -/
def fsLink : FS := { ro := [(["shared"], .reg statRoData)], rw := [([".wh.alias"], .reg whiteoutStat)] }

/-- Scenario state for the merge witness: RO file b.txt and its sidecar. -/
def fsMerge : FS := { ro := [(["b.txt"], .reg statRoData)], rw := [([".me.b.txt"], .reg statMeSide)] }

/-- Attribute request flagging uid and gid together. -/
def attrOwnerPair : Iattr :=
  { vMode := false, vUid := true, vGid := true, vSize := false, vAtime := false, vMtime := false, vCtime := false,
    mode := 0, uid := 1001, gid := 1002, size := 0, atime := 0, mtime := 0, ctime := 0 }

/-- Attribute request flagging size and ctime changes, which set_me_worker
must strip, along with an owner change. -/
def attrSizeCtime : Iattr :=
  { vMode := false, vUid := true, vGid := true, vSize := true, vAtime := false, vMtime := false, vCtime := true,
    mode := 0, uid := 77, gid := 78, size := 777, atime := 0, mtime := 0, ctime := 999 }

/-! Helper lemmas and the claim theorems. -/

theorem lookupEntry_insert_self (l : List (Path × FNode)) (p : Path) (n : FNode) :
    lookupEntry (insertEntry l p n) p = some n := by
  simp [insertEntry, lookupEntry]

theorem lookupEntry_remove (l : List (Path × FNode)) (p q : Path) :
    lookupEntry (removeEntry l p) q = if q = p then none else lookupEntry l q := by
  induction l with
  | nil => simp [removeEntry, lookupEntry]
  | cons e rest ih =>
    simp only [removeEntry, lookupEntry]
    by_cases h1 : e.1 = p <;> by_cases h2 : q = p <;> by_cases h3 : e.1 = q <;>
      simp_all [lookupEntry]

theorem lookupEntry_insert_ne (l : List (Path × FNode)) (p q : Path) (n : FNode)
    (h : q ≠ p) : lookupEntry (insertEntry l p n) q = lookupEntry l q := by
  simp only [insertEntry, lookupEntry, lookupEntry_remove]
  rw [if_neg (fun hh : p = q => h hh.symm), if_neg h]

theorem lookupEntry_update (l : List (Path × FNode)) (p q : Path) (f : FNode → FNode) :
    lookupEntry (updateEntry l p f) q =
      if q = p then (lookupEntry l p).map f else lookupEntry l q := by
  induction l with
  | nil => simp [updateEntry, lookupEntry]
  | cons e rest ih =>
    simp only [updateEntry, lookupEntry]
    by_cases h1 : e.1 = p <;> by_cases h2 : q = p <;> by_cases h3 : e.1 = q <;>
      simp_all [lookupEntry]

theorem splitLast_eq {p d : Path} {n : String} (h : splitLast p = some (d, n)) :
    p = d ++ [n] := by
  induction p generalizing d n with
  | nil => simp [splitLast] at h
  | cons x rest ih =>
    cases rest with
    | nil =>
      simp [splitLast] at h
      simp [h.1, h.2]
    | cons y rest2 =>
      simp only [splitLast] at h
      cases h2 : splitLast (y :: rest2) with
      | none => rw [h2] at h; simp at h
      | some dn =>
        rw [h2] at h
        simp only [Option.some.injEq, Prod.mk.injEq] at h
        obtain ⟨hd, hn⟩ := h
        subst hd
        subst hn
        have h5 := ih h2
        simp [h5]

theorem str_data_append (a b : String) : (a ++ b).data = a.data ++ b.data := by
  cases a
  cases b
  rfl

theorem me_append_ne (n : String) : ".me." ++ n ≠ n := by
  intro h
  have h1 := congrArg String.data h
  rw [str_data_append] at h1
  have h2 := congrArg List.length h1
  simp at h2
  omega

theorem wh_append_ne (n : String) : ".wh." ++ n ≠ n := by
  intro h
  have h1 := congrArg String.data h
  rw [str_data_append] at h1
  have h2 := congrArg List.length h1
  simp at h2
  omega

theorem me_ne_wh (n : String) : ".me." ++ n ≠ ".wh." ++ n := by
  intro h
  have h1 := congrArg String.data h
  rw [str_data_append, str_data_append] at h1
  have h2 : (".me.".data) = ['.', 'm', 'e', '.'] := rfl
  have h3 : (".wh.".data) = ['.', 'w', 'h', '.'] := rfl
  rw [h2, h3] at h1
  simp at h1

theorem mp_ne_p {d : Path} {n : String} : d ++ [".me." ++ n] ≠ d ++ [n] := by
  intro h
  have h1 := List.append_cancel_left h
  simp at h1
  exact me_append_ne n h1

theorem wp_ne_p {d : Path} {n : String} : d ++ [".wh." ++ n] ≠ d ++ [n] := by
  intro h
  have h1 := List.append_cancel_left h
  simp at h1
  exact wh_append_ne n h1

theorem mp_ne_wp {d : Path} {n : String} : d ++ [".me." ++ n] ≠ d ++ [".wh." ++ n] := by
  intro h
  have h1 := List.append_cancel_left h
  simp at h1
  exact me_ne_wh n h1

theorem creat_worker_ro (fs : FS) (p : Path) (m : Nat) : (creat_worker fs p m).ro = fs.ro := rfl

theorem applyAttr_rw_ro (fs : FS) (q : Path) (a : Iattr) : (applyAttr fs ⟨.rw, q⟩ a).ro = fs.ro := rfl

theorem addDir_ro (fs : FS) (q : Path) : (addDir fs q).ro = fs.ro := by
  unfold addDir
  split
  · rfl
  · split <;> rfl

theorem find_path_ro (fs : FS) (p : Path) : (find_path fs p).ro = fs.ro := by
  unfold find_path
  generalize ancestors p = L
  induction L generalizing fs with
  | nil => rfl
  | cons q rest ih => simp [List.foldl, ih, addDir_ro]

theorem addDir_lookup_ne (fs : FS) (r q : Path) (h : q ≠ r) :
    lookupEntry (addDir fs r).rw q = lookupEntry fs.rw q := by
  unfold addDir
  split
  · rfl
  · split
    · rfl
    · simp [lookupEntry_insert_ne _ _ _ _ h]

theorem addDir_lookup_some (fs : FS) (r q : Path) (n : FNode)
    (h : lookupEntry fs.rw q = some n) : lookupEntry (addDir fs r).rw q = some n := by
  by_cases hq : q = r
  · subst hq
    unfold addDir
    split
    · exact h
    · split
      · exact h
      · simp_all
  · rw [addDir_lookup_ne fs r q hq]
    exact h

theorem ancestors_length {p q : Path} (h : q ∈ ancestors p) : q.length < p.length := by
  induction p generalizing q with
  | nil => simp [ancestors] at h
  | cons x rest ih =>
    simp [ancestors] at h
    cases h with
    | inl h1 => simp [h1]
    | inr h1 =>
      obtain ⟨r, hr, hq⟩ := h1
      have := ih hr
      simp [← hq]
      omega

theorem find_path_lookup_ge (fs : FS) (p q : Path) (h : p.length ≤ q.length) :
    lookupEntry (find_path fs p).rw q = lookupEntry fs.rw q := by
  unfold find_path
  have hL : ∀ r ∈ ancestors p, r.length < q.length := by
    intro r hr
    have := ancestors_length hr
    omega
  generalize ancestors p = L at hL
  induction L generalizing fs with
  | nil => rfl
  | cons r rest ih =>
    simp only [List.foldl]
    rw [ih _ (fun r2 hr2 => hL r2 (List.mem_cons_of_mem r hr2))]
    apply addDir_lookup_ne
    intro hq
    have := hL r (List.mem_cons_self r rest)
    simp [hq] at this

theorem find_path_lookup_some (fs : FS) (p q : Path) (n : FNode)
    (h : lookupEntry fs.rw q = some n) : lookupEntry (find_path fs p).rw q = some n := by
  unfold find_path
  generalize ancestors p = L
  induction L generalizing fs with
  | nil => exact h
  | cons r rest ih =>
    simp only [List.foldl]
    exact ih _ (addDir_lookup_some fs r q n h)

theorem find_file_any_ro_inv {fs : FS} {p : Path} {c : CPath}
    (h : find_file fs p .any = .ok (.readOnly, c)) :
    c = ⟨.ro, p⟩ ∧ ∃ wp, whPathOf p = some wp ∧ lookupEntry fs.rw wp = none ∧
      lookupEntry fs.rw p = none ∧ (lookupEntry fs.ro p).isSome := by
  unfold find_file at h
  cases hw : whPathOf p with
  | none => rw [hw] at h; simp at h
  | some wp =>
    rw [hw] at h
    by_cases h1 : (lookupEntry fs.rw wp).isSome
    · simp [h1] at h
    · simp only [h1, if_false] at h
      by_cases h2 : (lookupEntry fs.rw p).isSome
      · simp [h2] at h
      · simp only [h2, and_false, if_false] at h
        by_cases h3 : (lookupEntry fs.ro p).isSome
        · simp [h3] at h
          refine ⟨h.symm, wp, rfl, ?_, ?_, h3⟩
          · cases hx : lookupEntry fs.rw wp with
            | none => rfl
            | some v => rw [hx] at h1; simp at h1
          · cases hx : lookupEntry fs.rw p with
            | none => rfl
            | some v => rw [hx] at h2; simp at h2
        · simp [h3] at h

theorem find_file_any_rw_inv {fs : FS} {p : Path} {c : CPath}
    (h : find_file fs p .any = .ok (.readWrite, c)) :
    c = ⟨.rw, p⟩ ∧ ∃ wp, whPathOf p = some wp ∧ lookupEntry fs.rw wp = none ∧
      (lookupEntry fs.rw p).isSome := by
  unfold find_file at h
  cases hw : whPathOf p with
  | none => rw [hw] at h; simp at h
  | some wp =>
    rw [hw] at h
    by_cases h1 : (lookupEntry fs.rw wp).isSome
    · simp [h1] at h
    · simp only [h1, if_false] at h
      by_cases h2 : (lookupEntry fs.rw p).isSome
      · simp [h2] at h
        refine ⟨h.symm, wp, rfl, ?_, h2⟩
        cases hx : lookupEntry fs.rw wp with
        | none => rfl
        | some v => rw [hx] at h1; simp at h1
      · simp only [h2, and_false, if_false] at h
        by_cases h3 : (lookupEntry fs.ro p).isSome
        · simp [h3] at h
        · simp [h3] at h

theorem find_file_any_no_copyup {fs : FS} {p : Path} {c : CPath}
    (h : find_file fs p .any = .ok (.readWriteCopyup, c)) : False := by
  unfold find_file at h
  cases hw : whPathOf p with
  | none => rw [hw] at h; simp at h
  | some wp =>
    rw [hw] at h
    by_cases h1 : (lookupEntry fs.rw wp).isSome
    · simp [h1] at h
    · simp only [h1, if_false] at h
      by_cases h2 : (lookupEntry fs.rw p).isSome
      · simp [h2] at h
      · simp only [h2, and_false, if_false] at h
        by_cases h3 : (lookupEntry fs.ro p).isSome
        · simp [h3] at h
        · simp [h3] at h

theorem find_file_ro_intro {fs : FS} {p wp : Path}
    (hw : whPathOf p = some wp) (h1 : lookupEntry fs.rw wp = none)
    (h2 : lookupEntry fs.rw p = none) (h3 : (lookupEntry fs.ro p).isSome) :
    find_file fs p .any = .ok (.readOnly, ⟨.ro, p⟩) := by
  unfold find_file
  rw [hw]
  simp [h1, h2, h3]

theorem mask_mix (x y : Nat) :
    ((x &&& TYPE_MODES_MASK) ||| (y &&& VALID_MODES_MASK)) &&& VALID_MODES_MASK =
      y &&& VALID_MODES_MASK := by
  unfold TYPE_MODES_MASK VALID_MODES_MASK
  apply Nat.eq_of_testBit_eq
  intro i
  have h0 : (61440 &&& 4095 : Nat) = 0 := by decide
  have h1 := congrArg (fun z => Nat.testBit z i) h0
  simp only [Nat.testBit_land, Nat.zero_testBit] at h1
  simp only [Nat.testBit_land, Nat.testBit_lor]
  cases hx : Nat.testBit x i <;> cases hy : Nat.testBit y i <;>
    cases hb : Nat.testBit 4095 i <;> simp_all [Nat.testBit_land]

/-- C1: at the failing input the RW branch holds both the data file a and
the sidecar .me.a; the resolution origin is ReadWrite, yet get_file_attr
returns the sidecar-merged attributes, uid 42 and merged mode, instead of
the unmerged RW stat with uid 7: the worker never consults the origin. -/
theorem C1_merge_applied_despite_rw_origin :
    find_file fsShadow ["a"] .any = .ok (.readWrite, ⟨.rw, ["a"]⟩) ∧
    get_file_attr fsShadow ["a"] =
      .ok { mode := 0o100600, uid := 42, gid := 43, size := 10, atime := 11, mtime := 12, ctime := 13 } ∧
    (lstat fsShadow ⟨.rw, ["a"]⟩).map Stat.uid = .ok 7 := by decide

/-- C2: creating the reserved name .me.evil inside foo succeeds with
return value zero and changes the filesystem state, where the claim
demands failure with EINVAL and no state change; the source header of
opts.c carries a todo to disallow such creations. -/
theorem C2_reserved_name_creation_not_refused :
    (hepunion_create fsResv ["foo", ".me.evil"] 0o644 1000 1000).1 = 0 ∧
    (hepunion_create fsResv ["foo", ".me.evil"] 0o644 1000 1000).1 ≠ -EINVAL ∧
    (hepunion_create fsResv ["foo", ".me.evil"] 0o644 1000 1000).2 ≠ fsResv ∧
    (lookupEntry (hepunion_create fsResv ["foo", ".me.evil"] 0o644 1000 1000).2.rw
      ["foo", ".me.evil"]).isSome := by decide

/-- C4: rmdir of the empty RO directory d with removal permission granted
(can_remove returning zero) leaves the state unchanged, keeping the
sidecar and creating no whiteout, and returns the leaked origin constant;
with permission denied (can_remove returning a negative error) the
operation instead proceeds, unlinks the sidecar and creates the whiteout:
the boolean-sense test of can_remove is inverted. -/
theorem C4_rmdir_ro_permission_inverted :
    hepunion_rmdir 0 none fsRmdir ["d"] = (originCode .readOnly, fsRmdir) ∧
    (hepunion_rmdir (-13) none fsRmdir ["d"]).1 = 0 ∧
    (lookupEntry (hepunion_rmdir (-13) none fsRmdir ["d"]).2.rw [".wh.d"]).isSome ∧
    lookupEntry (hepunion_rmdir (-13) none fsRmdir ["d"]).2.rw [".me.d"] = none := by decide

/-- C6 counterexample: create_me at the sidecar path of f with a stat
whose ctime is 5 yields, through find_me, a sidecar stat whose ctime is
the creation default 0, because the attribute update of create_me does
not flag ATTR_CTIME; the round trip is not the identity on ctime. -/
theorem C6_counterexample_ctime_dropped :
    (find_me (create_me fsEmpty [".me.f"] statKst) ["f"]).map (fun r => r.2.ctime) = .ok 0 ∧
    (find_me (create_me fsEmpty [".me.f"] statKst) ["f"]).map (fun r => r.2.ctime) ≠
      .ok statKst.ctime := by decide

/-- C8 counterexample: on the RO file a, a setattr request flagging only
uid with value 1001 succeeds, but the following getattr still reports uid
1000: at sidecar creation the owner pair is overwritten from the RO stat
whenever uid and gid are not both requested, so the set value is lost. -/
theorem C8_counterexample_uid_only_lost :
    (hepunion_setattr fsRoOnly ["a"] attrUidOnly).1 = 0 ∧
    attrUidOnly.vUid = true ∧ attrUidOnly.uid = 1001 ∧
    (get_file_attr (hepunion_setattr fsRoOnly ["a"] attrUidOnly).2 ["a"]).map Stat.uid = .ok 1000 ∧
    (get_file_attr (hepunion_setattr fsRoOnly ["a"] attrUidOnly).2 ["a"]).map Stat.uid ≠
      .ok attrUidOnly.uid := by decide

/-- C3 counterexample: with RW entries a, b and RO entry c, the populated
list is c, b, a, not the claimed RW-then-RO order a, b, c: both branch
readers insert with list_add, which prepends at the head. -/
theorem C3_counterexample_order_reversed :
    readdir_populate true true ["a", "b"] ["c"] = ["c", "b", "a"] ∧
    readdir_populate true true ["a", "b"] ["c"] ≠
      rwKept ["a", "b"] ++ roSurvivors ["a", "b"] ["c"] := by decide

theorem FNode.st_withSt (n : FNode) (s : Stat) : (n.withSt s).st = s := by
  cases n <;> rfl

theorem get_file_attr_ro_me (fs2 : FS) (p d : Path) (nm : String) (dn mn : FNode)
    (hsplit : splitLast p = some (d, nm))
    (hwh : lookupEntry fs2.rw (d ++ [".wh." ++ nm]) = none)
    (hrw : lookupEntry fs2.rw p = none)
    (hro : lookupEntry fs2.ro p = some dn)
    (hme : lookupEntry fs2.rw (d ++ [".me." ++ nm]) = some mn) :
    find_file fs2 p .any = .ok (.readOnly, ⟨.ro, p⟩) ∧
    get_file_attr fs2 p = .ok
      { dn.st with
        uid := mn.st.uid, gid := mn.st.gid, atime := mn.st.atime,
        mtime := mn.st.mtime, ctime := mn.st.ctime,
        mode := (dn.st.mode &&& TYPE_MODES_MASK) ||| (mn.st.mode &&& VALID_MODES_MASK) } := by
  have hwp : whPathOf p = some (d ++ [".wh." ++ nm]) := by simp [whPathOf, hsplit]
  have hmp : mePathOf p = some (d ++ [".me." ++ nm]) := by simp [mePathOf, hsplit]
  have hff := find_file_ro_intro hwp hwh hrw (by simp [hro])
  refine ⟨hff, ?_⟩
  unfold get_file_attr
  rw [hff]
  simp [get_file_attr_worker, find_me, hmp, hme, lstat, FS.branch, hro, clear_mode_flags]

/-- C5: for a path that resolves on the RO branch with a sidecar present,
the visible attributes take uid, gid, atime, mtime and ctime from the
sidecar stat and compose the mode from the non-alterable bits of the RO
data file and the alterable bits of the sidecar. -/
theorem C5_me_merge_composition (fs : FS) (p d : Path) (nm : String) (dn mn : FNode)
    (hsplit : splitLast p = some (d, nm))
    (hwh : lookupEntry fs.rw (d ++ [".wh." ++ nm]) = none)
    (hrw : lookupEntry fs.rw p = none)
    (hro : lookupEntry fs.ro p = some dn)
    (hme : lookupEntry fs.rw (d ++ [".me." ++ nm]) = some mn) :
    find_file fs p .any = .ok (.readOnly, ⟨.ro, p⟩) ∧
    get_file_attr fs p = .ok
      { dn.st with
        uid := mn.st.uid, gid := mn.st.gid, atime := mn.st.atime,
        mtime := mn.st.mtime, ctime := mn.st.ctime,
        mode := (dn.st.mode &&& TYPE_MODES_MASK) ||| (mn.st.mode &&& VALID_MODES_MASK) } :=
  get_file_attr_ro_me fs p d nm dn mn hsplit hwh hrw hro hme

/-- C5 witness: the merge rule evaluated on the concrete RO file b.txt
with its sidecar. -/
theorem C5_me_merge_composition_witness :
    get_file_attr fsMerge ["b.txt"] =
      .ok { mode := 0o100600, uid := 42, gid := 43, size := 100, atime := 11, mtime := 12, ctime := 13 } := by
  have h := C5_me_merge_composition fsMerge ["b.txt"] [] "b.txt" (.reg statRoData) (.reg statMeSide)
    (by decide) (by decide) (by decide) (by decide) (by decide)
  exact h.2

/-- C6 amended: create_me followed by find_me returns the sidecar path
and a stat whose mode, uid, gid, atime and mtime come from the given stat
(the mode exactly, hence equal within the alterable mask), whose size is
zero, and whose ctime is the creation default, not the given ctime. -/
theorem C6_create_me_find_me_roundtrip (fs : FS) (p d : Path) (nm : String) (kst : Stat)
    (hsplit : splitLast p = some (d, nm)) :
    find_me (create_me fs (d ++ [".me." ++ nm]) kst) p =
      .ok (d ++ [".me." ++ nm],
        { mode := kst.mode, uid := kst.uid, gid := kst.gid, size := 0,
          atime := kst.atime, mtime := kst.mtime, ctime := 0 }) := by
  have hmp : mePathOf p = some (d ++ [".me." ++ nm]) := by simp [mePathOf, hsplit]
  unfold find_me
  rw [hmp]
  unfold create_me applyAttr creat_worker
  simp only [lookupEntry_update, if_pos rfl, lookupEntry_insert_self]
  simp [notify_change, FNode.withSt, FNode.st]

/-- C6 witness: the round trip evaluated at the concrete stat. -/
theorem C6_create_me_find_me_roundtrip_witness :
    find_me (create_me fsEmpty [".me.f"] statKst) ["f"] =
      .ok ([".me.f"],
        { mode := 0o644, uid := 1, gid := 2, size := 0, atime := 3, mtime := 4, ctime := 0 }) := by
  have h := C6_create_me_find_me_roundtrip fsEmpty ["f"] [] "f" statKst (by decide)
  exact h

/-- C10: when a sidecar exists, set_me_worker masks the request down to
the uid, gid, atime, mtime and mode attributes before applying it: the
sidecar keeps its size and ctime whatever the request flags, each of the
five permitted attributes changes exactly when requested, and no other
entry of either branch is touched. -/
theorem C10_set_me_worker_masks_request (fs : FS) (p d : Path) (nm : String) (real : CPath)
    (a : Iattr) (M : FNode)
    (hsplit : splitLast p = some (d, nm))
    (hme : lookupEntry fs.rw (d ++ [".me." ++ nm]) = some M) :
    (set_me_worker fs p real a).1 = 0 ∧
    (lookupEntry (set_me_worker fs p real a).2.rw (d ++ [".me." ++ nm])).map FNode.st =
      some { mode := if a.vMode then a.mode else M.st.mode,
             uid := if a.vUid then a.uid else M.st.uid,
             gid := if a.vGid then a.gid else M.st.gid,
             size := M.st.size,
             atime := if a.vAtime then a.atime else M.st.atime,
             mtime := if a.vMtime then a.mtime else M.st.mtime,
             ctime := M.st.ctime } ∧
    (∀ q, q ≠ d ++ [".me." ++ nm] →
      lookupEntry (set_me_worker fs p real a).2.rw q = lookupEntry fs.rw q) ∧
    (set_me_worker fs p real a).2.ro = fs.ro := by
  have hmp : mePathOf p = some (d ++ [".me." ++ nm]) := by simp [mePathOf, hsplit]
  unfold set_me_worker
  rw [hmp]
  simp only [hme]
  by_cases hv : anyValid (maskToMe a)
  · rw [if_pos hv]
    refine ⟨rfl, ?_, ?_, rfl⟩
    · simp [applyAttr, lookupEntry_update, hme, notify_change, FNode.st_withSt, maskToMe]
    · intro q hq
      simp [applyAttr, lookupEntry_update, hq]
  · rw [if_neg hv]
    have hflags : a.vMode = false ∧ a.vUid = false ∧ a.vGid = false ∧
        a.vAtime = false ∧ a.vMtime = false := by
      simp [anyValid, maskToMe] at hv
      obtain ⟨⟨⟨⟨h1, h2⟩, h3⟩, h4⟩, h5⟩ := hv
      exact ⟨h1, h2, h3, h4, h5⟩
    refine ⟨rfl, ?_, fun q hq => rfl, rfl⟩
    simp [hme, hflags.1, hflags.2.1, hflags.2.2.1, hflags.2.2.2.1, hflags.2.2.2.2]

/-- C10 witness: a request flagging size and ctime leaves the sidecar
size and ctime of .me.f unchanged while applying the owner change. -/
theorem C10_set_me_worker_masks_request_witness :
    (set_me_worker fsUnlink ["f"] ⟨.ro, ["f"]⟩ attrSizeCtime).1 = 0 ∧
    (lookupEntry (set_me_worker fsUnlink ["f"] ⟨.ro, ["f"]⟩ attrSizeCtime).2.rw [".me.f"]).map FNode.st =
      some { mode := 0o700, uid := 77, gid := 78, size := 0, atime := 2, mtime := 2, ctime := 2 } := by
  have h := C10_set_me_worker_masks_request fsUnlink ["f"] [] "f" ⟨.ro, ["f"]⟩ attrSizeCtime
    (.reg statMeDir) (by decide) (by decide)
  exact ⟨h.1, h.2.1⟩

/-- C7: unlink of an RO-resolved path with a sidecar: the sidecar is
unlinked first and then the whiteout is created; when the whiteout
creation fails after the sidecar deletion, the sidecar is recreated from
the saved stat (exactly on mode, owner and times, with the creation
defaults for size and ctime) and no whiteout is left, so the state is
logically equivalent to the pre-state modulo the best-effort rollback; in
both runs the RO branch and every other RW entry at basename depth is
untouched. -/
theorem C7_unlink_ro_rollback (fs : FS) (p d : Path) (nm : String) (M : FNode) (e : Int)
    (hsplit : splitLast p = some (d, nm))
    (hwh : lookupEntry fs.rw (d ++ [".wh." ++ nm]) = none)
    (hrwp : lookupEntry fs.rw p = none)
    (hro : (lookupEntry fs.ro p).isSome)
    (hme : lookupEntry fs.rw (d ++ [".me." ++ nm]) = some M)
    (he : e < 0) :
    (hepunion_unlink 0 none fs p).1 = 0 ∧
    lookupEntry (hepunion_unlink 0 none fs p).2.rw (d ++ [".me." ++ nm]) = none ∧
    (lookupEntry (hepunion_unlink 0 none fs p).2.rw (d ++ [".wh." ++ nm])).isSome ∧
    (hepunion_unlink 0 none fs p).2.ro = fs.ro ∧
    (hepunion_unlink 0 (some e) fs p).1 = e ∧
    (lookupEntry (hepunion_unlink 0 (some e) fs p).2.rw (d ++ [".me." ++ nm])).map FNode.st =
      some { mode := M.st.mode, uid := M.st.uid, gid := M.st.gid, size := 0,
             atime := M.st.atime, mtime := M.st.mtime, ctime := 0 } ∧
    lookupEntry (hepunion_unlink 0 (some e) fs p).2.rw (d ++ [".wh." ++ nm]) = none ∧
    (hepunion_unlink 0 (some e) fs p).2.ro = fs.ro ∧
    (∀ q, q ≠ d ++ [".me." ++ nm] → q ≠ d ++ [".wh." ++ nm] → p.length ≤ q.length →
      lookupEntry (hepunion_unlink 0 none fs p).2.rw q = lookupEntry fs.rw q ∧
      lookupEntry (hepunion_unlink 0 (some e) fs p).2.rw q = lookupEntry fs.rw q) := by
  have hwp : whPathOf p = some (d ++ [".wh." ++ nm]) := by simp [whPathOf, hsplit]
  have hmp : mePathOf p = some (d ++ [".me." ++ nm]) := by simp [mePathOf, hsplit]
  have hff := find_file_ro_intro hwp hwh hrwp hro
  have hpe : p = d ++ [nm] := splitLast_eq hsplit
  have hlen : p.length ≤ (d ++ [".me." ++ nm]).length := by simp [hpe]
  have hlenw : p.length ≤ (d ++ [".wh." ++ nm]).length := by simp [hpe]
  have hrun1 : hepunion_unlink 0 none fs p =
      (0, { find_path { fs with rw := removeEntry fs.rw (d ++ [".me." ++ nm]) } p with
            rw := insertEntry
              (find_path { fs with rw := removeEntry fs.rw (d ++ [".me." ++ nm]) } p).rw
              (d ++ [".wh." ++ nm]) (.reg whiteoutStat) }) := by
    unfold hepunion_unlink
    rw [hff]
    simp [find_me, hmp, hme, unlink_w, create_whiteout, hwp]
  have hrun2 : hepunion_unlink 0 (some e) fs p =
      (e, create_me { fs with rw := removeEntry fs.rw (d ++ [".me." ++ nm]) }
            (d ++ [".me." ++ nm]) M.st) := by
    unfold hepunion_unlink
    rw [hff]
    simp [find_me, hmp, hme, unlink_w, create_whiteout, he, not_lt.mpr he.le]
  refine ⟨?_, ?_, ?_, ?_, ?_, ?_, ?_, ?_, ?_⟩
  · rw [hrun1]
  · rw [hrun1]
    show lookupEntry (insertEntry _ _ _) _ = none
    rw [lookupEntry_insert_ne _ _ _ _ mp_ne_wp]
    rw [find_path_lookup_ge _ _ _ hlen]
    simp [lookupEntry_remove]
  · rw [hrun1]
    show (lookupEntry (insertEntry _ _ _) _).isSome
    rw [lookupEntry_insert_self]
    rfl
  · rw [hrun1]
    show (find_path _ _).ro = fs.ro
    rw [find_path_ro]
  · rw [hrun2]
  · rw [hrun2]
    show (lookupEntry (create_me _ _ _).rw _).map FNode.st = _
    unfold create_me applyAttr creat_worker
    simp only [lookupEntry_update, if_pos rfl, lookupEntry_insert_self]
    simp [notify_change, FNode.withSt, FNode.st]
  · rw [hrun2]
    show lookupEntry (create_me _ _ _).rw _ = none
    unfold create_me applyAttr creat_worker
    rw [lookupEntry_update, if_neg (fun h => mp_ne_wp h.symm)]
    rw [lookupEntry_insert_ne _ _ _ _ (fun h => mp_ne_wp h.symm)]
    simp [lookupEntry_remove, hwh]
  · rw [hrun2]
    show (create_me _ _ _).ro = fs.ro
    unfold create_me applyAttr creat_worker
    rfl
  · intro q hqm hqw hqlen
    constructor
    · rw [hrun1]
      show lookupEntry (insertEntry _ _ _) _ = _
      rw [lookupEntry_insert_ne _ _ _ _ hqw]
      rw [find_path_lookup_ge _ _ _ hqlen]
      simp [lookupEntry_remove, hqm]
    · rw [hrun2]
      show lookupEntry (create_me _ _ _).rw _ = _
      unfold create_me applyAttr creat_worker
      rw [lookupEntry_update, if_neg hqm]
      rw [lookupEntry_insert_ne _ _ _ _ hqm]
      simp [lookupEntry_remove, hqm]

/-- C7 witness: the unlink rollback evaluated on the RO file f with its
sidecar, for the injected whiteout fault code -5. -/
theorem C7_unlink_ro_rollback_witness :
    (hepunion_unlink 0 none fsUnlink ["f"]).1 = 0 ∧
    lookupEntry (hepunion_unlink 0 none fsUnlink ["f"]).2.rw [".me.f"] = none ∧
    (lookupEntry (hepunion_unlink 0 none fsUnlink ["f"]).2.rw [".wh.f"]).isSome ∧
    (hepunion_unlink 0 (some (-5)) fsUnlink ["f"]).1 = -5 ∧
    (lookupEntry (hepunion_unlink 0 (some (-5)) fsUnlink ["f"]).2.rw [".me.f"]).map FNode.st =
      some { mode := 0o700, uid := 5, gid := 5, size := 0, atime := 2, mtime := 2, ctime := 0 } ∧
    lookupEntry (hepunion_unlink 0 (some (-5)) fsUnlink ["f"]).2.rw [".wh.f"] = none := by
  have h := C7_unlink_ro_rollback fsUnlink ["f"] [] "f" (.reg statMeDir) (-5)
    (by decide) (by decide) (by decide) (by decide) (by decide) (by decide)
  exact ⟨h.1, h.2.1, h.2.2.1, h.2.2.2.2.1, h.2.2.2.2.2.1, h.2.2.2.2.2.2.1⟩

/-- C9: link resolves the source; a read-only source yields a symbolic
link on the RW branch at the destination pointing to the RO concrete path
of the source, a read-write source yields a hard link inside the RW
branch, the any-intent resolution never reports a copy-up origin, and in
both cases no whiteout remains at the destination afterwards while the
RO branch is untouched. -/
theorem C9_link_symlink_fallback (fs : FS) (src dst dd : Path) (nd : String)
    (o : Origin) (rf : CPath) (e : Int)
    (hsrc : find_file fs src .any = .ok (o, rf))
    (hdst : find_file fs dst .any = .error e)
    (hsplit : splitLast dst = some (dd, nd)) :
    (hepunion_link fs src dst).1 = 0 ∧
    lookupEntry (hepunion_link fs src dst).2.rw (dd ++ [".wh." ++ nd]) = none ∧
    (hepunion_link fs src dst).2.ro = fs.ro ∧
    (o = .readOnly →
      lookupEntry (hepunion_link fs src dst).2.rw dst = some (.sym symlinkStat ⟨.ro, src⟩)) ∧
    (o = .readWrite → ∃ n, lookupEntry fs.rw src = some n ∧
      lookupEntry (hepunion_link fs src dst).2.rw dst = some (.hard n.st ⟨.rw, src⟩)) ∧
    o ≠ .readWriteCopyup := by
  have hwpd : whPathOf dst = some (dd ++ [".wh." ++ nd]) := by simp [whPathOf, hsplit]
  have hde : dst = dd ++ [nd] := splitLast_eq hsplit
  have hdstwp : dst ≠ dd ++ [".wh." ++ nd] := by
    rw [hde]
    exact fun h => wp_ne_p h.symm
  cases o with
  | readWriteCopyup => exact absurd hsrc find_file_any_no_copyup
  | readOnly =>
    obtain ⟨hrf, _⟩ := find_file_any_ro_inv hsrc
    subst hrf
    have hrun : hepunion_link fs src dst =
        (0, unlink_whiteout
          { find_path fs dst with
            rw := insertEntry (find_path fs dst).rw dst (.sym symlinkStat ⟨.ro, src⟩) } dst) := by
      unfold hepunion_link
      rw [hsrc, hdst]
      simp [symlink_worker]
    refine ⟨by rw [hrun], ?_, ?_, ?_, ?_, by decide⟩
    · rw [hrun]
      unfold unlink_whiteout
      rw [hwpd]
      simp [lookupEntry_remove]
    · rw [hrun]
      unfold unlink_whiteout
      rw [hwpd]
      show (find_path fs dst).ro = fs.ro
      exact find_path_ro fs dst
    · intro _
      rw [hrun]
      unfold unlink_whiteout
      rw [hwpd]
      show lookupEntry (removeEntry _ _) _ = _
      rw [lookupEntry_remove, if_neg hdstwp, lookupEntry_insert_self]
    · intro h
      cases h
  | readWrite =>
    obtain ⟨hrf, wp2, hw2, hw3, hw4⟩ := find_file_any_rw_inv hsrc
    subst hrf
    obtain ⟨n, hn⟩ := Option.isSome_iff_exists.mp hw4
    have hn2 : lookupEntry (find_path fs dst).rw src = some n :=
      find_path_lookup_some fs dst src n hn
    have hrun : hepunion_link fs src dst =
        (0, unlink_whiteout
          { find_path fs dst with
            rw := insertEntry (find_path fs dst).rw dst (.hard n.st ⟨.rw, src⟩) } dst) := by
      unfold hepunion_link
      rw [hsrc, hdst]
      simp [link_worker, hn2]
    refine ⟨by rw [hrun], ?_, ?_, ?_, ?_, by decide⟩
    · rw [hrun]
      unfold unlink_whiteout
      rw [hwpd]
      simp [lookupEntry_remove]
    · rw [hrun]
      unfold unlink_whiteout
      rw [hwpd]
      show (find_path fs dst).ro = fs.ro
      exact find_path_ro fs dst
    · intro h
      cases h
    · intro _
      refine ⟨n, hn, ?_⟩
      rw [hrun]
      unfold unlink_whiteout
      rw [hwpd]
      show lookupEntry (removeEntry _ _) _ = _
      rw [lookupEntry_remove, if_neg hdstwp, lookupEntry_insert_self]

/-- C9 witness: linking the RO file shared to alias, which carries a
stale whiteout, leaves a symbolic link to the RO concrete path and no
whiteout. -/
theorem C9_link_symlink_fallback_witness :
    (hepunion_link fsLink ["shared"] ["alias"]).1 = 0 ∧
    lookupEntry (hepunion_link fsLink ["shared"] ["alias"]).2.rw ["alias"] =
      some (.sym symlinkStat ⟨.ro, ["shared"]⟩) ∧
    lookupEntry (hepunion_link fsLink ["shared"] ["alias"]).2.rw [".wh.alias"] = none := by
  have h := C9_link_symlink_fallback fsLink ["shared"] ["alias"] [] "alias"
    .readOnly ⟨.ro, ["shared"]⟩ (-ENOENT) (by decide) (by decide) (by decide)
  exact ⟨h.1, h.2.2.2.1 rfl, h.2.1⟩

theorem rw_fold_characterization (rwN : List String) (ctx : DirCtx) :
    (rwN.foldl (read_rw_branch true) ctx).files = (rwKept rwN).reverse ++ ctx.files ∧
    (rwN.foldl (read_rw_branch true) ctx).whiteouts = (rwWhs rwN).reverse ++ ctx.whiteouts := by
  induction rwN generalizing ctx with
  | nil => simp [rwKept, rwWhs]
  | cons n rest ih =>
    simp only [List.foldl]
    by_cases h1 : is_me n
    · simpa [read_rw_branch, h1, rwKept, rwWhs] using ih ctx
    · by_cases h2 : is_whiteout n
      · simpa [read_rw_branch, h1, h2, rwKept, rwWhs] using
          ih { ctx with whiteouts := stripMarker n :: ctx.whiteouts }
      · simpa [read_rw_branch, h1, h2, rwKept, rwWhs] using
          ih { ctx with files := n :: ctx.files }

theorem ro_fold_characterization (roN : List String) (ctx : DirCtx) (h : roN.Nodup) :
    (roN.foldl read_ro_branch ctx).files =
      (roN.filter (fun n => decide (n ∉ ctx.whiteouts ∧ n ∉ ctx.files))).reverse ++ ctx.files := by
  induction roN generalizing ctx with
  | nil => simp
  | cons n rest ih =>
    have hnotin : n ∉ rest := (List.nodup_cons.mp h).1
    have hrest : rest.Nodup := (List.nodup_cons.mp h).2
    simp only [List.foldl]
    by_cases h1 : n ∈ ctx.whiteouts
    · simpa [read_ro_branch, h1] using ih ctx hrest
    · by_cases h2 : n ∈ ctx.files
      · simpa [read_ro_branch, h1, h2] using ih ctx hrest
      · have hrec := ih { ctx with files := n :: ctx.files } hrest
        have hfc : rest.filter (fun m => decide (m ∉ ctx.whiteouts ∧ m ∉ n :: ctx.files)) =
            rest.filter (fun m => decide (m ∉ ctx.whiteouts ∧ m ∉ ctx.files)) := by
          apply List.filter_congr
          intro m hm
          have hmn : m ≠ n := fun hh => hnotin (hh ▸ hm)
          simp [List.mem_cons, hmn]
        simp only at hrec
        rw [hfc] at hrec
        simp [read_ro_branch, h1, h2, hrec]

theorem readdir_find_none (l : List String) (i pos : Nat) (h : l.length + i ≤ pos) :
    readdir_find l i pos = none := by
  induction l generalizing i with
  | nil => rfl
  | cons x rest ih =>
    simp only [readdir_find]
    rw [if_neg (by simp at h; omega)]
    exact ih (i + 1) (by simp at h; omega)

/-- C3 amended: the populated listing is the surviving RO entries in
reverse underlying order followed by the kept RW entries in reverse
underlying order (both branch readers prepend, so each block is
reversed); it contains no duplicate basename, and the integer cursor
reports end of directory past the end of the list. -/
theorem C3_readdir_reversed_merge (rwN roN : List String) (h1 : rwN.Nodup) (h2 : roN.Nodup) :
    readdir_populate true true rwN roN = (roSurvivors rwN roN).reverse ++ (rwKept rwN).reverse ∧
    (readdir_populate true true rwN roN).Nodup ∧
    (∀ i, (readdir_populate true true rwN roN).length ≤ i →
      hepunion_readdir_at (readdir_populate true true rwN roN) i = none) := by
  have hc1 := rw_fold_characterization rwN { files := [], whiteouts := [] }
  have hmain : readdir_populate true true rwN roN =
      (roSurvivors rwN roN).reverse ++ (rwKept rwN).reverse := by
    unfold readdir_populate
    simp only [if_true]
    rw [ro_fold_characterization _ _ h2, hc1.1, hc1.2]
    simp only [List.append_nil]
    have hfc : roN.filter
        (fun n => decide (n ∉ (rwWhs rwN).reverse ∧ n ∉ (rwKept rwN).reverse)) =
        roSurvivors rwN roN := by
      unfold roSurvivors
      apply List.filter_congr
      intro m _
      simp [List.mem_reverse]
    rw [hfc]
  have hnd : ((roSurvivors rwN roN).reverse ++ (rwKept rwN).reverse).Nodup := by
    rw [List.nodup_append]
    refine ⟨List.nodup_reverse.mpr (h2.filter _), List.nodup_reverse.mpr (h1.filter _), ?_⟩
    intro a ha hb
    rw [List.mem_reverse] at ha hb
    have hmem := List.mem_filter.mp ha
    simp only [decide_eq_true_eq] at hmem
    exact hmem.2.2 hb
  refine ⟨hmain, hmain ▸ hnd, ?_⟩
  intro i hi
  unfold hepunion_readdir_at
  exact readdir_find_none _ 0 i (by omega)

/-- C3 witness: the amended order evaluated on RW entries a, b and RO
entry c. -/
theorem C3_readdir_reversed_merge_witness :
    readdir_populate true true ["a", "b"] ["c"] =
      (roSurvivors ["a", "b"] ["c"]).reverse ++ (rwKept ["a", "b"]).reverse ∧
    (readdir_populate true true ["a", "b"] ["c"]).Nodup := by
  have h := C3_readdir_reversed_merge ["a", "b"] ["c"] (by decide) (by decide)
  exact ⟨h.1, h.2.1⟩

theorem creation_state (fs : FS) (p d : Path) (nm : String) (m0 : Nat) (a3 : Iattr)
    (hpe : p = d ++ [nm]) :
    (applyAttr (creat_worker (find_path fs p) (d ++ [".me." ++ nm]) m0)
      ⟨.rw, d ++ [".me." ++ nm]⟩ a3).ro = fs.ro ∧
    lookupEntry (applyAttr (creat_worker (find_path fs p) (d ++ [".me." ++ nm]) m0)
      ⟨.rw, d ++ [".me." ++ nm]⟩ a3).rw (d ++ [".wh." ++ nm]) =
      lookupEntry fs.rw (d ++ [".wh." ++ nm]) ∧
    lookupEntry (applyAttr (creat_worker (find_path fs p) (d ++ [".me." ++ nm]) m0)
      ⟨.rw, d ++ [".me." ++ nm]⟩ a3).rw p = lookupEntry fs.rw p ∧
    lookupEntry (applyAttr (creat_worker (find_path fs p) (d ++ [".me." ++ nm]) m0)
      ⟨.rw, d ++ [".me." ++ nm]⟩ a3).rw (d ++ [".me." ++ nm]) =
      some (.reg (notify_change
        { mode := m0, uid := 0, gid := 0, size := 0, atime := 0, mtime := 0, ctime := 0 } a3)) := by
  have hwne : (d ++ [".wh." ++ nm]) ≠ (d ++ [".me." ++ nm]) := fun h => mp_ne_wp h.symm
  have hpne : p ≠ (d ++ [".me." ++ nm]) := by
    rw [hpe]
    exact fun h => mp_ne_p h.symm
  have hlw : p.length ≤ (d ++ [".wh." ++ nm]).length := by simp [hpe]
  refine ⟨?_, ?_, ?_, ?_⟩
  · show (find_path fs p).ro = fs.ro
    exact find_path_ro fs p
  · show lookupEntry (updateEntry (insertEntry (find_path fs p).rw _ _) _ _) _ = _
    rw [lookupEntry_update, if_neg hwne, lookupEntry_insert_ne _ _ _ _ hwne,
      find_path_lookup_ge _ _ _ hlw]
  · show lookupEntry (updateEntry (insertEntry (find_path fs p).rw _ _) _ _) _ = _
    rw [lookupEntry_update, if_neg hpne, lookupEntry_insert_ne _ _ _ _ hpne,
      find_path_lookup_ge _ _ _ (le_refl _)]
  · show lookupEntry (updateEntry (insertEntry (find_path fs p).rw _ _) _ _) _ = _
    rw [lookupEntry_update, if_pos rfl, lookupEntry_insert_self]
    rfl

theorem set_me_worker_create_eq (fs : FS) (p mp : Path) (real : CPath) (a0 : Iattr) (kstme : Stat)
    (hmp : mePathOf p = some mp)
    (hno : lookupEntry fs.rw mp = none)
    (hls : lstat fs real = .ok kstme) :
    set_me_worker fs p real a0 =
      (0, applyAttr
        (creat_worker (find_path fs p) mp
          (clear_mode_flags (if (maskToMe a0).vMode then (maskToMe a0).mode else kstme.mode)))
        ⟨.rw, mp⟩ (meCreateAttr (maskToMe a0) kstme)) := by
  unfold set_me_worker
  rw [hmp]
  simp [hno, hls]

theorem meCreateAttr_spec (a : Iattr) (k : Stat) (hu : a.vUid = a.vGid) (ht : a.vAtime = a.vMtime) :
    meCreateAttr a k =
      { vMode := false, vUid := true, vGid := true, vSize := a.vSize, vAtime := true,
        vMtime := true, vCtime := a.vCtime,
        mode := a.mode,
        uid := if a.vUid then a.uid else k.uid,
        gid := if a.vGid then a.gid else k.gid,
        size := a.size,
        atime := if a.vAtime then a.atime else k.atime,
        mtime := if a.vMtime then a.mtime else k.mtime,
        ctime := a.ctime } := by
  by_cases hA : a.vAtime <;> by_cases hU : a.vUid <;>
    simp [meCreateAttr, hA, hU, ← ht, ← hu]

/-- C8 amended: setattr on an RO-resolved path followed by getattr
returns each value that was set, with the mode compared within the
alterable mask, provided the request flags uid and gid together and atime
and mtime together, as the flag groups of set_me do; a request flagging
exactly one member of a pair at sidecar creation is overwritten from the
RO stat and is not covered. -/
theorem C8_setattr_getattr_roundtrip (fs : FS) (p : Path) (real : CPath) (a : Iattr)
    (hro : find_file fs p .any = .ok (.readOnly, real))
    (hu : a.vUid = a.vGid) (ht : a.vAtime = a.vMtime) :
    (hepunion_setattr fs p a).1 = 0 ∧
    ∃ G, get_file_attr (hepunion_setattr fs p a).2 p = .ok G ∧
      (a.vUid = true → G.uid = a.uid) ∧
      (a.vGid = true → G.gid = a.gid) ∧
      (a.vAtime = true → G.atime = a.atime) ∧
      (a.vMtime = true → G.mtime = a.mtime) ∧
      (a.vMode = true → G.mode &&& VALID_MODES_MASK = a.mode &&& VALID_MODES_MASK) := by
  obtain ⟨hreal, wp0, hwp0, hwh0, hrwp, hros⟩ := find_file_any_ro_inv hro
  subst hreal
  obtain ⟨dn, hdn⟩ := Option.isSome_iff_exists.mp hros
  cases hsp : splitLast p with
  | none =>
    rw [whPathOf, hsp] at hwp0
    simp at hwp0
  | some dpair =>
    obtain ⟨d, nm⟩ := dpair
    have hpe : p = d ++ [nm] := splitLast_eq hsp
    have hwpv : whPathOf p = some (d ++ [".wh." ++ nm]) := by simp [whPathOf, hsp]
    have hwpeq : d ++ [".wh." ++ nm] = wp0 := Option.some.inj (hwpv.symm.trans hwp0)
    have hwh : lookupEntry fs.rw (d ++ [".wh." ++ nm]) = none := by
      rw [hwpeq]
      exact hwh0
    have hmp : mePathOf p = some (d ++ [".me." ++ nm]) := by simp [mePathOf, hsp]
    have hsm : hepunion_setattr fs p a = set_me_worker fs p ⟨.ro, p⟩ a := by
      unfold hepunion_setattr
      rw [hro]
    rw [hsm]
    have hwne : (d ++ [".wh." ++ nm]) ≠ (d ++ [".me." ++ nm]) := fun h => mp_ne_wp h.symm
    have hpne : p ≠ (d ++ [".me." ++ nm]) := by
      rw [hpe]
      exact fun h => mp_ne_p h.symm
    cases hmel : lookupEntry fs.rw (d ++ [".me." ++ nm]) with
    | some Mn =>
      have hred : set_me_worker fs p ⟨.ro, p⟩ a =
          if anyValid (maskToMe a) then (0, applyAttr fs ⟨.rw, d ++ [".me." ++ nm]⟩ (maskToMe a))
          else (0, fs) := by
        unfold set_me_worker
        rw [hmp]
        simp [hmel]
      rw [hred]
      by_cases hv : anyValid (maskToMe a)
      · rw [if_pos hv]
        have hF := get_file_attr_ro_me (applyAttr fs ⟨.rw, d ++ [".me." ++ nm]⟩ (maskToMe a))
          p d nm dn (Mn.withSt (notify_change Mn.st (maskToMe a))) hsp
          (by
            show lookupEntry (updateEntry fs.rw _ _) _ = none
            rw [lookupEntry_update, if_neg hwne]
            exact hwh)
          (by
            show lookupEntry (updateEntry fs.rw _ _) _ = none
            rw [lookupEntry_update, if_neg hpne]
            exact hrwp)
          hdn
          (by
            show lookupEntry (updateEntry fs.rw _ _) _ = _
            rw [lookupEntry_update, if_pos rfl, hmel]
            rfl)
        refine ⟨rfl, _, hF.2, ?_, ?_, ?_, ?_, ?_⟩
        · intro h
          simp [FNode.st_withSt, notify_change, maskToMe, h]
        · intro h
          simp [FNode.st_withSt, notify_change, maskToMe, h]
        · intro h
          simp [FNode.st_withSt, notify_change, maskToMe, h]
        · intro h
          simp [FNode.st_withSt, notify_change, maskToMe, h]
        · intro h
          simp only [FNode.st_withSt, notify_change, maskToMe, h, if_true]
          exact mask_mix _ _
      · rw [if_neg hv]
        have hflags : a.vMode = false ∧ a.vUid = false ∧ a.vGid = false ∧
            a.vAtime = false ∧ a.vMtime = false := by
          simp [anyValid, maskToMe] at hv
          obtain ⟨⟨⟨⟨h1, h2⟩, h3⟩, h4⟩, h5⟩ := hv
          exact ⟨h1, h2, h3, h4, h5⟩
        have hF := get_file_attr_ro_me fs p d nm dn Mn hsp hwh hrwp hdn hmel
        refine ⟨rfl, _, hF.2, ?_, ?_, ?_, ?_, ?_⟩
        · intro h
          rw [h] at hflags
          simp at hflags
        · intro h
          rw [h] at hflags
          simp at hflags
        · intro h
          rw [h] at hflags
          simp at hflags
        · intro h
          rw [h] at hflags
          simp at hflags
        · intro h
          rw [h] at hflags
          simp at hflags
    | none =>
      have hls : lstat fs ⟨.ro, p⟩ = .ok dn.st := by simp [lstat, FS.branch, hdn]
      have hred := set_me_worker_create_eq fs p (d ++ [".me." ++ nm]) ⟨.ro, p⟩ a dn.st hmp hmel hls
      rw [hred]
      have hcs := creation_state fs p d nm
        (clear_mode_flags (if (maskToMe a).vMode then (maskToMe a).mode else dn.st.mode))
        (meCreateAttr (maskToMe a) dn.st) hpe
      have hu2 : (maskToMe a).vUid = (maskToMe a).vGid := hu
      have ht2 : (maskToMe a).vAtime = (maskToMe a).vMtime := ht
      have hspec := meCreateAttr_spec (maskToMe a) dn.st hu2 ht2
      have hF := get_file_attr_ro_me _ p d nm dn
        (.reg (notify_change
          { mode := clear_mode_flags (if (maskToMe a).vMode then (maskToMe a).mode else dn.st.mode),
            uid := 0, gid := 0, size := 0, atime := 0, mtime := 0, ctime := 0 }
          (meCreateAttr (maskToMe a) dn.st))) hsp
        (hcs.2.1.trans hwh) (hcs.2.2.1.trans hrwp)
        (by rw [hcs.1]; exact hdn)
        hcs.2.2.2
      refine ⟨rfl, _, hF.2, ?_, ?_, ?_, ?_, ?_⟩
      · intro h
        rw [hspec]
        simp [FNode.st, notify_change, maskToMe, h]
      · intro h
        rw [hspec]
        simp [FNode.st, notify_change, maskToMe, h]
      · intro h
        rw [hspec]
        simp [FNode.st, notify_change, maskToMe, h]
      · intro h
        rw [hspec]
        simp [FNode.st, notify_change, maskToMe, h]
      · intro h
        rw [hspec]
        simp only [FNode.st, notify_change, maskToMe, h, if_true, if_false,
          Bool.false_eq_true, clear_mode_flags]
        rw [Nat.land_assoc]
        have hvv : (VALID_MODES_MASK &&& VALID_MODES_MASK) = VALID_MODES_MASK := by decide
        rw [hvv]
        exact mask_mix _ _

/-- C8 witness: the paired owner request attrOwnerPair on the RO file a
is reproduced by the following getattr. -/
theorem C8_setattr_getattr_roundtrip_witness :
    (hepunion_setattr fsRoOnly ["a"] attrOwnerPair).1 = 0 ∧
    (get_file_attr (hepunion_setattr fsRoOnly ["a"] attrOwnerPair).2 ["a"]).map Stat.uid =
      .ok 1001 := by
  have h := C8_setattr_getattr_roundtrip fsRoOnly ["a"] ⟨.ro, ["a"]⟩ attrOwnerPair
    (by decide) rfl rfl
  refine ⟨h.1, ?_⟩
  obtain ⟨G, hG, hu2, _, _, _, _⟩ := h.2
  rw [hG]
  have hmap : (Except.ok G : Except Int Stat).map Stat.uid = .ok G.uid := rfl
  rw [hmap, hu2 rfl]
  rfl

end HepUnion
